import Mathlib

/-!
Shallow embedding of `src/schema-manager.go` (opencommand/schema-manager).

The program is a CLI with four subcommands (`init`, `list`, `search`,
`status`) over a local cache directory that mirrors a remote git
repository.  We model:

* the filesystem tree under the cache path (`FSEntry`), including entries
  whose stat fails (producing a walk error, as `filepath.Walk` reports);
* the walk performed by `listFiles` / `searchFiles` (`walkList`), which
  collects relative paths of non-directory entries whose name satisfies
  the callback's filter and aborts at the first traversal error;
* the external collaborators (go-git, regexp) as data in a `World` /
  function parameters: clone, open, remote listing, HEAD resolution and
  regex compilation are capabilities whose outcomes are part of the input;
* each workflow (`initRepository`, `listFiles`, `searchFiles`,
  `checkRepository`) as a function from `World` to a `CmdResult` holding
  the stdout lines, the exit code, the observable side effects (in order)
  and the final world.
-/

namespace SchemaManager

/-! ## String primitives

`strings.HasSuffix` / `strings.HasPrefix` and Go's slicing `s[:n]` /
`s[n:]` are modelled over the character list of a `String` (the strings
involved — filenames, reference names, hex hashes — are ASCII, where byte
and character indices coincide). -/

/-- Model of `strings.HasSuffix(s, suf)`. -/
def strEndsWith (s suf : String) : Bool := suf.data.isSuffixOf s.data

/-- Model of `strings.HasPrefix(s, p)`. -/
def strStartsWith (s p : String) : Bool := p.data.isPrefixOf s.data

/-- Go slicing `s[n:]`. -/
def strDrop (s : String) (n : Nat) : String := ⟨s.data.drop n⟩

/-- Go slicing `s[:n]`. -/
def strTake (s : String) (n : Nat) : String := ⟨s.data.take n⟩

/-- A filesystem entry under the cache directory.  `errEntry` stands for an
entry whose `lstat`/read fails during the walk: `filepath.Walk` then calls
the callback with a non-nil error, which the program's callbacks return,
aborting the walk. -/
inductive FSEntry where
  | file (name : String)
  | errEntry (name : String) (msg : String)
  | dir (name : String) (children : List FSEntry)
deriving Repr

/-- Joining in the style of `filepath.Rel`: relative path of a child named `name`
under the relative directory `pre` ("" denotes the cache root). -/
def joinRel (pre name : String) : String :=
  if pre = "" then name else pre ++ "/" ++ name

/-- The walk of `filepath.Walk` as used by `listFiles`/`searchFiles`: visit
entries in order, collect the relative path of each non-directory entry
whose name satisfies `p`, recurse into directories, and abort with the
first traversal error (entries after the error are not visited).  Returns
the collected paths (in traversal order, printed before the abort) and the
error, if any. -/
def walkList (p : String → Bool) (pre : String) : List FSEntry → List String × Option String
  | [] => ([], none)
  | FSEntry.file n :: es =>
      let rest := walkList p pre es
      (if p n then joinRel pre n :: rest.1 else rest.1, rest.2)
  | FSEntry.errEntry _ m :: _ => ([], some m)
  | FSEntry.dir n cs :: es =>
      let inner := walkList p (joinRel pre n) cs
      match inner.2 with
      | some m => (inner.1, some m)
      | none =>
          let rest := walkList p pre es
          (inner.1 ++ rest.1, rest.2)

/-- All regular-file entries of a tree, as (relative path, filename) pairs,
in traversal order.  This is the reference enumeration the walk is compared
against: directories contribute no pair themselves. -/
def filesOfList (pre : String) : List FSEntry → List (String × String)
  | [] => []
  | FSEntry.file n :: es => (joinRel pre n, n) :: filesOfList pre es
  | FSEntry.errEntry _ _ :: es => filesOfList pre es
  | FSEntry.dir n cs :: es => filesOfList (joinRel pre n) cs ++ filesOfList pre es

/-- A tree is error-free when no entry's stat fails during the walk. -/
def errorFreeList : List FSEntry → Bool
  | [] => true
  | FSEntry.file _ :: es => errorFreeList es
  | FSEntry.errEntry _ _ :: _ => false
  | FSEntry.dir _ cs :: es => errorFreeList cs && errorFreeList es

/-- The suffix filter of `listFiles`: `strings.HasSuffix(info.Name(), ".hl")`. -/
def hlFilter (n : String) : Bool := strEndsWith n ".hl"

theorem walkList_eq_filter (p : String → Bool) (pre : String) (es : List FSEntry) :
    errorFreeList es = true →
      walkList p pre es =
        (((filesOfList pre es).filter (fun q => p q.2)).map Prod.fst, none) := by
  induction pre, es using walkList.induct p with
  | case1 pre =>
      intro _; simp [walkList, filesOfList]
  | case2 pre n es ih =>
      intro h
      simp only [errorFreeList] at h
      simp only [walkList, filesOfList, ih h, List.filter_cons]
      by_cases hp : p n <;> simp [hp]
  | case3 pre name m tail =>
      intro h; simp [errorFreeList] at h
  | case4 pre n cs es inner m hsome ih =>
      intro h
      simp only [errorFreeList, Bool.and_eq_true] at h
      have h2 : (walkList p (joinRel pre n) cs).2 = some m := hsome
      rw [ih h.1] at h2
      simp at h2
  | case5 pre n cs es inner hnone ihcs ihes =>
      intro h
      simp only [errorFreeList, Bool.and_eq_true] at h
      have hcs := ihcs h.1
      have hes := ihes h.2
      rw [walkList.eq_4, hcs, hes]
      simp [filesOfList, List.filter_append]

/-! ## The external git collaborator and the world -/

/-- A reference advertised by the remote, as returned by `remote.List`:
full reference name (e.g. `refs/heads/main`) and its commit hash, rendered
as the 40-character hex string that `plumbing.Hash.String()` produces. -/
structure RemoteRef where
  name : String
  hash : String
deriving Repr, DecidableEq

/-- The zero value of `plumbing.Hash`, rendered as hex (`IsZero` compares to it). -/
def zeroHash : String := "0000000000000000000000000000000000000000"

/-- Model of `plumbing.ReferenceName.IsBranch`: the name starts with `refs/heads/`. -/
def refIsBranch (n : String) : Bool := strStartsWith n "refs/heads/"

/-- Model of `plumbing.ReferenceName.Short`: strip the leading well-known reference
namespace from the full name (branch names lose `refs/heads/`). -/
def refShort (n : String) : String :=
  if strStartsWith n "refs/heads/" then strDrop n 11
  else if strStartsWith n "refs/tags/" then strDrop n 10
  else if strStartsWith n "refs/remotes/" then strDrop n 13
  else if strStartsWith n "refs/" then strDrop n 5
  else n

/-- The loop of `checkRepository` locating the remote `main` branch:
`remoteMainHash` starts at the zero hash and takes the hash of the first
reference that is a branch with short name `main` (`break`). -/
def findMainHash : List RemoteRef → String
  | [] => zeroHash
  | r :: rs =>
      if refIsBranch r.name && refShort r.name == "main" then r.hash
      else findMainHash rs

/-- The git metadata of a cache directory that `git.PlainOpen` accepts:
the outcome of `repo.Remote("origin")` (`none` = success) and of
`repo.Head()` (commit hash as hex, or an error). -/
structure GitMeta where
  originErr : Option String
  head : Except String String
deriving Repr

/-- What is on disk at the cache path when it exists: the file tree that a
walk traverses, and the outcome of `git.PlainOpen` on it (`Except.ok` for
a valid working tree, `Except.error` for a directory that is not one). -/
structure CacheDir where
  entries : List FSEntry
  repo : Except String GitMeta
deriving Repr

/-- The world a command runs against: the user's home directory, the cache
path's state (`none` = `os.Stat` fails, path absent), and the outcomes the
external collaborators would produce — the remote listing (a network
operation), and the error results of `os.RemoveAll`, `os.MkdirAll` and
`git.PlainClone` (`none` = success), together with the tree and metadata a
successful clone installs. -/
structure World where
  home : String
  cache : Option CacheDir
  remoteRefs : Except String (List RemoteRef)
  removeRes : Option String
  mkdirRes : Option String
  cloneRes : Option String
  cloneTree : List FSEntry
  cloneMeta : GitMeta

/-- The path `cacheDir = filepath.Join(homeDir, ".opencmd", "commands")`. -/
def cacheDirOf (home : String) : String := home ++ "/.opencmd/commands"

/-- Model of `repositoryExists`: `os.Stat(cacheDir)` succeeds. -/
def repositoryExists (w : World) : Bool := w.cache.isSome

/-- Observable side effects of a run, in order of occurrence. -/
inductive Effect where
  | scanFS
  | network
  | removeCache
  | mkCache
  | cloneRepo
deriving Repr, DecidableEq

/-- The outcome of one command run: stdout lines in order, the process
exit code (`1` when the program calls `os.Exit(1)`), the side effects in
order, and the final world. -/
structure CmdResult where
  out : List String
  exitCode : Nat
  effects : List Effect
  world : World

/-! ## Messages (verbatim from the source) -/

def notFoundMsg : String := "Repository not found. Run 'schema-manager init' first."

/-- A separator line of `n` equals signs (the source writes the 37- and
50-character separators out literally). -/
def sepLine (n : Nat) : String := ⟨List.replicate n '='⟩

def listHeader : List String :=
  ["Listing .hl files in cache directory:", sepLine 37]

def searchSep : String := sepLine 50

def noMatchesMsg : String := "No .hl files found matching the pattern."

def upToDateMsg : String := "✓ Local repository is up to date with remote."

def behindMsg : String := "✗ Local repository is behind remote."

/-! ## The four workflows -/

/-- Model of `listFiles`: if the cache is absent report not-found; otherwise print
the two header lines and walk the cache, printing `"  " ++ relPath` for
each non-directory entry ending in `.hl`; a walk error is printed after
the lines collected before the abort. -/
def listFiles (w : World) : CmdResult :=
  match w.cache with
  | none => ⟨[notFoundMsg], 0, [], w⟩
  | some c =>
      let res := walkList hlFilter "" c.entries
      let fileLines := res.1.map (fun rp => "  " ++ rp)
      match res.2 with
      | some e =>
          ⟨listHeader ++ fileLines ++ ["Error walking directory: " ++ e], 0,
           [Effect.scanFS], w⟩
      | none => ⟨listHeader ++ fileLines, 0, [Effect.scanFS], w⟩

/-- Model of `searchFiles`: the regexp engine is external, so the compilation
outcome is a parameter: `compile pattern` is `Except.error e` when
`regexp.Compile` fails with message `e`, and `Except.ok re` with `re` the
compiled matcher otherwise.  The matcher is applied to `info.Name()`, the
filename component, inside the suffix filter. -/
def searchFiles (compile : String → Except String (String → Bool))
    (pattern : String) (w : World) : CmdResult :=
  match w.cache with
  | none => ⟨[notFoundMsg], 0, [], w⟩
  | some c =>
      match compile pattern with
      | Except.error e => ⟨["Invalid regex pattern: " ++ e], 0, [], w⟩
      | Except.ok re =>
          let hdr := ["Searching for .hl files matching pattern: " ++ pattern,
                      searchSep]
          let res := walkList (fun n => hlFilter n && re n) "" c.entries
          let fileLines := res.1.map (fun rp => "  " ++ rp)
          match res.2 with
          | some e =>
              ⟨hdr ++ fileLines ++ ["Error walking directory: " ++ e], 0,
               [Effect.scanFS], w⟩
          | none =>
              if res.1.isEmpty then ⟨hdr ++ [noMatchesMsg], 0, [Effect.scanFS], w⟩
              else ⟨hdr ++ fileLines, 0, [Effect.scanFS], w⟩

/-- Model of `checkRepository` (`status`): open the cache, get remote `origin`,
list its references over the network, resolve local HEAD, locate the
remote `main` branch, and compare. -/
def checkRepository (w : World) : CmdResult :=
  match w.cache with
  | none => ⟨[notFoundMsg], 0, [], w⟩
  | some c =>
      match c.repo with
      | Except.error e => ⟨["Error opening repository: " ++ e], 0, [], w⟩
      | Except.ok g =>
          match g.originErr with
          | some e => ⟨["Error getting remote: " ++ e], 0, [], w⟩
          | none =>
              match w.remoteRefs with
              | Except.error e =>
                  ⟨["Error listing remote refs: " ++ e], 0, [Effect.network], w⟩
              | Except.ok refs =>
                  match g.head with
                  | Except.error e =>
                      ⟨["Error getting HEAD: " ++ e], 0, [Effect.network], w⟩
                  | Except.ok headHash =>
                      let m := findMainHash refs
                      if m = zeroHash then
                        ⟨["Could not find remote main branch."], 0,
                         [Effect.network], w⟩
                      else if headHash = m then
                        ⟨[upToDateMsg], 0, [Effect.network], w⟩
                      else
                        ⟨[behindMsg,
                          "  Local HEAD:  " ++ strTake headHash 8,
                          "  Remote main: " ++ strTake m 8,
                          "  Run 'schema-manager init -f' to update."], 0,
                         [Effect.network], w⟩

/-- The cache directory just after `os.MkdirAll`: it exists and is empty,
and `git.PlainOpen` on it fails (no repository yet). -/
def emptyCacheDir : CacheDir := ⟨[], Except.error "repository does not exist"⟩

/-- The shared tail of `initRepository` from `os.MkdirAll` on: create the
directory, then clone.  A failed clone exits non-zero and leaves the
created directory behind, not a valid working tree. -/
def initClone (w : World) (outs : List String) (effs : List Effect) : CmdResult :=
  match w.mkdirRes with
  | some e =>
      ⟨outs ++ ["Error creating directory: " ++ e], 1, effs ++ [Effect.mkCache], w⟩
  | none =>
      match w.cloneRes with
      | some e =>
          ⟨outs ++ ["Cloning repository to: " ++ cacheDirOf w.home,
                    "Error cloning repository: " ++ e], 1,
           effs ++ [Effect.mkCache, Effect.cloneRepo],
           { w with cache := some emptyCacheDir }⟩
      | none =>
          ⟨outs ++ ["Cloning repository to: " ++ cacheDirOf w.home,
                    "Repository cloned successfully!"], 0,
           effs ++ [Effect.mkCache, Effect.cloneRepo],
           { w with cache := some ⟨w.cloneTree, Except.ok w.cloneMeta⟩ }⟩

/-- Model of `initRepository`: with force, `os.RemoveAll` the cache first (exit
non-zero on failure, modelled as leaving the world unchanged); without
force, an existing cache short-circuits with the already-exists report;
otherwise create the directory and clone. -/
def initRepository (force : Bool) (w : World) : CmdResult :=
  if force then
    match w.removeRes with
    | some e =>
        ⟨["Error removing existing directory: " ++ e], 1, [Effect.removeCache], w⟩
    | none =>
        initClone { w with cache := none }
          ["Removed existing cache directory."] [Effect.removeCache]
  else
    if (w.cache).isSome then
      ⟨["Repository already exists at: " ++ cacheDirOf w.home,
        "Use -f flag to force re-clone."], 0, [], w⟩
    else
      initClone w [] []

/-! ## Helper lemmas -/

theorem append_ne_one (a s t : String) (ca ct : Char)
    (h1 : (a.data ++ s.data).take 1 = [ca]) (h2 : t.data.take 1 = [ct])
    (hne : ca ≠ ct) : a ++ s ≠ t := by
  intro he
  apply hne
  have hd : (a ++ s).data.take 1 = t.data.take 1 := by rw [he]
  rw [String.data_append, h1, h2] at hd
  exact List.head_eq_of_cons_eq hd

theorem mem_indent_map (rp : String) (l : List String) :
    ("  " ++ rp) ∈ l.map (fun x => "  " ++ x) ↔ rp ∈ l := by
  simp only [List.mem_map]
  constructor
  · rintro ⟨x, hx, he⟩
    have hd := congrArg String.data he
    rw [String.data_append, String.data_append] at hd
    have : x = rp := String.ext (List.append_cancel_left hd)
    exact this ▸ hx
  · intro hx
    exact ⟨rp, hx, rfl⟩

/-- Membership characterisation of the walk: a relative path is collected
exactly when it is a regular-file entry of the tree whose filename passes
the filter. -/
theorem mem_walk_iff (p : String → Bool) (es : List FSEntry)
    (hfree : errorFreeList es = true) (rp : String) :
    rp ∈ (walkList p "" es).1 ↔
      ∃ n, (rp, n) ∈ filesOfList "" es ∧ p n = true := by
  rw [walkList_eq_filter p "" es hfree]
  simp only [List.mem_map, List.mem_filter, Prod.exists]
  constructor
  · rintro ⟨a, b, ⟨hmem, hp⟩, rfl⟩
    exact ⟨b, hmem, hp⟩
  · rintro ⟨n, hmem, hp⟩
    exact ⟨rp, n, ⟨hmem, hp⟩, rfl⟩

/-! ## Concrete inputs used by the witnesses -/

/-- A base git metadata value for witness worlds. -/
def gMeta : GitMeta := ⟨none, Except.ok zeroHash⟩

/-- A world whose cache path is absent. -/
def wAbsent : World :=
  { home := "/home/u", cache := none, remoteRefs := Except.ok [],
    removeRes := none, mkdirRes := none, cloneRes := none,
    cloneTree := [], cloneMeta := gMeta }

/-- The scenario tree: `a/b.hl`, `a/c.txt`, `d.hl`, plus a directory whose
name itself ends in `.hl` (directories are never listed). -/
def es0 : List FSEntry :=
  [FSEntry.dir "a" [FSEntry.file "b.hl", FSEntry.file "c.txt"],
   FSEntry.file "d.hl",
   FSEntry.dir "z.hl" []]

/-! ## C1 -/

/-- C1: for every error-free directory tree, the filesystem scan used by
`list` collects exactly the relative paths of the regular-file entries
(never directories) whose filename ends in `.hl`, and nothing else,
membership being independent of the traversal order. -/
theorem c1_scan_filter (es : List FSEntry) (h : errorFreeList es = true)
    (path : String) :
    path ∈ (walkList hlFilter "" es).1 ↔
      ∃ n, (path, n) ∈ filesOfList "" es ∧ strEndsWith n ".hl" = true :=
  mem_walk_iff hlFilter es h path

theorem c1_scan_filter_witness :
    errorFreeList es0 = true ∧
      ("a/b.hl" ∈ (walkList hlFilter "" es0).1 ↔
        ∃ n, ("a/b.hl", n) ∈ filesOfList "" es0 ∧ strEndsWith n ".hl" = true) :=
  ⟨by simp [es0, errorFreeList], c1_scan_filter es0 (by simp [es0, errorFreeList]) "a/b.hl"⟩

/-! ## C4 -/

/-- C4: on an absent cache path, `list`, `search` and `status` each print
only the not-initialized message, exit with status 0, perform no side
effect (no scan, no clone, no network call) and leave the world unchanged. -/
theorem c4_absent_cache (w : World) (h : w.cache = none)
    (compile : String → Except String (String → Bool)) (pattern : String) :
    listFiles w = ⟨[notFoundMsg], 0, [], w⟩ ∧
    searchFiles compile pattern w = ⟨[notFoundMsg], 0, [], w⟩ ∧
    checkRepository w = ⟨[notFoundMsg], 0, [], w⟩ := by
  refine ⟨?_, ?_, ?_⟩ <;> simp [listFiles, searchFiles, checkRepository, h]

theorem c4_absent_cache_witness :
    listFiles wAbsent = ⟨[notFoundMsg], 0, [], wAbsent⟩ ∧
    searchFiles (fun _ => Except.error "e") "x" wAbsent
      = ⟨[notFoundMsg], 0, [], wAbsent⟩ ∧
    checkRepository wAbsent = ⟨[notFoundMsg], 0, [], wAbsent⟩ :=
  c4_absent_cache wAbsent rfl (fun _ => Except.error "e") "x"

/-! ## C6 -/

/-- C6: with the cache present, a pattern that does not compile makes
`search` print only the invalid-pattern message, perform no directory scan
(no side effect at all), and return with exit status 0. -/
theorem c6_invalid_pattern (w : World) (c : CacheDir) (hc : w.cache = some c)
    (compile : String → Except String (String → Bool)) (pattern e : String)
    (hcomp : compile pattern = Except.error e) :
    searchFiles compile pattern w =
      ⟨["Invalid regex pattern: " ++ e], 0, [], w⟩ := by
  simp [searchFiles, hc, hcomp]

/-- A world whose cache holds the scenario tree, openable as a repository. -/
def wTree : World :=
  { home := "/home/u", cache := some ⟨es0, Except.ok gMeta⟩,
    remoteRefs := Except.ok [], removeRes := none, mkdirRes := none,
    cloneRes := none, cloneTree := [], cloneMeta := gMeta }

theorem c6_invalid_pattern_witness :
    searchFiles (fun _ => Except.error "error parsing regexp: missing closing ]")
        "[invalid" wTree =
      ⟨["Invalid regex pattern: error parsing regexp: missing closing ]"],
       0, [], wTree⟩ :=
  c6_invalid_pattern wTree ⟨es0, Except.ok gMeta⟩ rfl
    (fun _ => Except.error "error parsing regexp: missing closing ]") "[invalid"
    "error parsing regexp: missing closing ]" rfl

/-! ## C2 -/

/-- C2: when the cache exists and the status workflow reaches the
comparison (open, remote, listing and HEAD succeed, and a remote `main`
was found), it prints the up-to-date indicator iff the local HEAD hash
equals the remote `main` hash; when they differ it prints the behind
indicator together with the first 8 hex characters of each hash. -/
theorem c2_status_compare (w : World) (c : CacheDir) (g : GitMeta)
    (refs : List RemoteRef) (headHash : String)
    (hc : w.cache = some c) (hrepo : c.repo = Except.ok g)
    (horig : g.originErr = none) (hrefs : w.remoteRefs = Except.ok refs)
    (hhead : g.head = Except.ok headHash)
    (hm : findMainHash refs ≠ zeroHash) :
    ((checkRepository w).out = [upToDateMsg] ↔ headHash = findMainHash refs) ∧
    (headHash ≠ findMainHash refs →
      (checkRepository w).out =
        [behindMsg,
         "  Local HEAD:  " ++ strTake headHash 8,
         "  Remote main: " ++ strTake (findMainHash refs) 8,
         "  Run 'schema-manager init -f' to update."]) := by
  simp only [checkRepository, hc, hrepo, horig, hrefs, hhead]
  rw [if_neg hm]
  by_cases he : headHash = findMainHash refs
  · rw [if_pos he]
    refine ⟨by simp [he], fun h => absurd he h⟩
  · rw [if_neg he]
    refine ⟨⟨fun hout => ?_, fun h => absurd h he⟩, fun _ => rfl⟩
    exact absurd hout (by simp)

/-- Forty-character hex hashes used in the status witnesses. -/
def hashA : String := "aaaaaaaaaaaaaaaaaaaaaaaaaaaaaaaaaaaaaaaa"

def hashB : String := "bbbbbbbbbbbbbbbbbbbbbbbbbbbbbbbbbbbbbbbb"

def refsC2 : List RemoteRef :=
  [⟨"refs/tags/v1", "cccccccccccccccccccccccccccccccccccccccc"⟩,
   ⟨"refs/heads/main", hashB⟩]

def wC2 : World :=
  { home := "/home/u", cache := some ⟨es0, Except.ok ⟨none, Except.ok hashA⟩⟩,
    remoteRefs := Except.ok refsC2, removeRes := none, mkdirRes := none,
    cloneRes := none, cloneTree := [], cloneMeta := gMeta }

theorem c2_status_compare_witness :
    ((checkRepository wC2).out = [upToDateMsg] ↔ hashA = findMainHash refsC2) ∧
    (hashA ≠ findMainHash refsC2 →
      (checkRepository wC2).out =
        [behindMsg,
         "  Local HEAD:  " ++ strTake hashA 8,
         "  Remote main: " ++ strTake (findMainHash refsC2) 8,
         "  Run 'schema-manager init -f' to update."]) :=
  c2_status_compare wC2 ⟨es0, Except.ok ⟨none, Except.ok hashA⟩⟩
    ⟨none, Except.ok hashA⟩ refsC2 hashA rfl rfl rfl rfl rfl (by decide)

/-! ## C10 -/

/-- The guard of the `checkRepository` loop, as a predicate on a listed
reference. -/
def mainPred (r : RemoteRef) : Bool := refIsBranch r.name && refShort r.name == "main"

theorem findMainHash_eq (refs : List RemoteRef) :
    findMainHash refs =
      (((refs.find? mainPred).map RemoteRef.hash).getD zeroHash) := by
  induction refs with
  | nil => rfl
  | cons r rs ih =>
      simp only [findMainHash]
      rw [show (refIsBranch r.name && refShort r.name == "main") = mainPred r from rfl]
      cases h : mainPred r
      · rw [List.find?_cons_of_neg _ (by simp [h])]
        simp [ih]
      · rw [List.find?_cons_of_pos _ h]
        simp

/-- C10: the remote `main` hash `status` selects is the hash of the first
listed reference that is a branch with short name `main` (zero hash when
none matches); and whenever that selection is the zero hash — no such
reference, or the first one carries the all-zero id — `status` reports
that the remote main branch could not be found and returns without
comparing identifiers. -/
theorem c10_remote_main (w : World) (c : CacheDir) (g : GitMeta)
    (refs : List RemoteRef) (headHash : String)
    (hc : w.cache = some c) (hrepo : c.repo = Except.ok g)
    (horig : g.originErr = none) (hrefs : w.remoteRefs = Except.ok refs)
    (hhead : g.head = Except.ok headHash) :
    findMainHash refs = (((refs.find? mainPred).map RemoteRef.hash).getD zeroHash) ∧
    (((refs.find? mainPred).map RemoteRef.hash = none ∨
        (refs.find? mainPred).map RemoteRef.hash = some zeroHash) →
      checkRepository w =
        ⟨["Could not find remote main branch."], 0, [Effect.network], w⟩) := by
  refine ⟨findMainHash_eq refs, fun hz => ?_⟩
  have hzero : findMainHash refs = zeroHash := by
    rw [findMainHash_eq refs]
    rcases hz with h | h <;> simp [h]
  simp only [checkRepository, hc, hrepo, horig, hrefs, hhead]
  rw [if_pos hzero]

/-- Remote listing whose first `main` reference carries the zero hash,
while a later `main` reference does not. -/
def refsC10 : List RemoteRef :=
  [⟨"refs/heads/main", zeroHash⟩, ⟨"refs/heads/main", hashB⟩]

def wC10 : World :=
  { home := "/home/u", cache := some ⟨es0, Except.ok ⟨none, Except.ok hashA⟩⟩,
    remoteRefs := Except.ok refsC10, removeRes := none, mkdirRes := none,
    cloneRes := none, cloneTree := [], cloneMeta := gMeta }

theorem c10_remote_main_witness :
    findMainHash refsC10 =
      (((refsC10.find? mainPred).map RemoteRef.hash).getD zeroHash) ∧
    (((refsC10.find? mainPred).map RemoteRef.hash = none ∨
        (refsC10.find? mainPred).map RemoteRef.hash = some zeroHash) →
      checkRepository wC10 =
        ⟨["Could not find remote main branch."], 0, [Effect.network], wC10⟩) :=
  c10_remote_main wC10 ⟨es0, Except.ok ⟨none, Except.ok hashA⟩⟩
    ⟨none, Except.ok hashA⟩ refsC10 hashA rfl rfl rfl rfl rfl

/-! ## C3 -/

/-- C3: `init` without force on an existing cache performs no clone and no
filesystem mutation and reports that the repository already exists (exit
0); `init --force` always removes the cache first (the first effect of any
forced run is the recursive delete), and when removal, directory creation
and clone all succeed it performs exactly delete–create–clone and installs
the freshly cloned working tree. -/
theorem c3_init_force (w : World) :
    (w.cache.isSome = true →
      initRepository false w =
        ⟨["Repository already exists at: " ++ cacheDirOf w.home,
          "Use -f flag to force re-clone."], 0, [], w⟩) ∧
    (initRepository true w).effects.head? = some Effect.removeCache ∧
    (w.removeRes = none → w.mkdirRes = none → w.cloneRes = none →
      initRepository true w =
        ⟨["Removed existing cache directory.",
          "Cloning repository to: " ++ cacheDirOf w.home,
          "Repository cloned successfully!"], 0,
         [Effect.removeCache, Effect.mkCache, Effect.cloneRepo],
         { w with cache := some ⟨w.cloneTree, Except.ok w.cloneMeta⟩ }⟩) := by
  refine ⟨fun h => ?_, ?_, fun h1 h2 h3 => ?_⟩
  · simp [initRepository, h]
  · rcases hr : w.removeRes with _ | e
    · rcases hm : w.mkdirRes with _ | e2
      · rcases hc : w.cloneRes with _ | e3 <;>
          simp [initRepository, initClone, hr, hm, hc]
      · simp [initRepository, initClone, hr, hm]
    · simp [initRepository, hr]
  · simp [initRepository, initClone, h1, h2, h3]

theorem c3_init_force_witness :
    initRepository false wTree =
      ⟨["Repository already exists at: " ++ cacheDirOf wTree.home,
        "Use -f flag to force re-clone."], 0, [], wTree⟩ ∧
    (initRepository true wTree).effects.head? = some Effect.removeCache ∧
    initRepository true wTree =
      ⟨["Removed existing cache directory.",
        "Cloning repository to: " ++ cacheDirOf wTree.home,
        "Repository cloned successfully!"], 0,
       [Effect.removeCache, Effect.mkCache, Effect.cloneRepo],
       { wTree with cache := some ⟨wTree.cloneTree, Except.ok wTree.cloneMeta⟩ }⟩ :=
  ⟨(c3_init_force wTree).1 rfl, (c3_init_force wTree).2.1,
   (c3_init_force wTree).2.2 rfl rfl rfl⟩

/-! ## C7 -/

/-- The spec's invariant on the cache location: absent, or a directory
that opens as a valid version-control working tree. -/
def cacheInvariant (w : World) : Prop :=
  w.cache = none ∨ ∃ c g, w.cache = some c ∧ c.repo = Except.ok g

/-- A world with no cache where `git.PlainClone` would fail. -/
def wCloneFail : World :=
  { home := "/home/u", cache := none, remoteRefs := Except.ok [],
    removeRes := none, mkdirRes := none,
    cloneRes := some "authentication required",
    cloneTree := [], cloneMeta := gMeta }

/-- C7 fails on the code: starting from an absent cache (which satisfies
the invariant), an `init` run whose clone fails terminates (exit 1) with
the `MkdirAll`-created directory still present at the cache path, which is
not a valid working tree. -/
theorem c7_counterexample :
    cacheInvariant wCloneFail ∧
    ¬ cacheInvariant (initRepository false wCloneFail).world := by
  refine ⟨Or.inl rfl, ?_⟩
  rintro (h | ⟨c, g, hc, hr⟩)
  · exact absurd h (by simp [initRepository, initClone, wCloneFail])
  · have hc' : (initRepository false wCloneFail).world.cache = some emptyCacheDir := rfl
    rw [hc'] at hc
    injection hc with hce
    rw [← hce] at hr
    simp [emptyCacheDir] at hr

theorem listFiles_world (w : World) : (listFiles w).world = w := by
  rcases hc : w.cache with _ | c
  · simp [listFiles, hc]
  · rcases hr : (walkList hlFilter "" c.entries).2 with _ | e <;>
      simp [listFiles, hc, hr]

theorem searchFiles_world (compile : String → Except String (String → Bool))
    (pattern : String) (w : World) :
    (searchFiles compile pattern w).world = w := by
  rcases hc : w.cache with _ | c
  · simp [searchFiles, hc]
  · rcases hcmp : compile pattern with e | re
    · simp [searchFiles, hc, hcmp]
    · rcases hr : (walkList (fun n => hlFilter n && re n) "" c.entries).2 with _ | e
      · simp only [searchFiles, hc, hcmp, hr]
        split <;> rfl
      · simp [searchFiles, hc, hcmp, hr]

theorem checkRepository_world (w : World) : (checkRepository w).world = w := by
  unfold checkRepository
  repeat' split
  all_goals first
    | rfl
    | (dsimp only []; split_ifs <;> rfl)

/-- C7 amended: after every terminated run of `list`, `search` or
`status`, and after every `init` run whose clone step does not fail, the
cache location is absent or a valid working tree; an `init` run whose
clone fails is the exception (see the counterexample), leaving a directory
that is not a valid working tree. -/
theorem c7_invariant_amended (w : World) (hw : cacheInvariant w)
    (compile : String → Except String (String → Bool)) (pattern : String)
    (force : Bool) (hclone : w.cloneRes = none) :
    cacheInvariant (listFiles w).world ∧
    cacheInvariant (searchFiles compile pattern w).world ∧
    cacheInvariant (checkRepository w).world ∧
    cacheInvariant (initRepository force w).world := by
  refine ⟨?_, ?_, ?_, ?_⟩
  · rw [listFiles_world]; exact hw
  · rw [searchFiles_world]; exact hw
  · rw [checkRepository_world]; exact hw
  · cases force with
    | true =>
        rcases hr : w.removeRes with _ | e
        · rcases hm : w.mkdirRes with _ | e2
          · simp [initRepository, initClone, hr, hm, hclone]
            exact Or.inr ⟨_, _, rfl, rfl⟩
          · simp [initRepository, initClone, hr, hm]
            exact Or.inl rfl
        · simp [initRepository, hr]
          exact hw
    | false =>
        rcases hc : w.cache with _ | c
        · rcases hm : w.mkdirRes with _ | e2
          · simp [initRepository, initClone, hc, hm, hclone]
            exact Or.inr ⟨_, _, rfl, rfl⟩
          · simp [initRepository, initClone, hc, hm]
            exact Or.inl hc
        · simp [initRepository, hc]
          exact hw

theorem c7_invariant_amended_witness :
    cacheInvariant (listFiles wTree).world ∧
    cacheInvariant (searchFiles (fun _ => Except.error "e") "x" wTree).world ∧
    cacheInvariant (checkRepository wTree).world ∧
    cacheInvariant (initRepository true wTree).world :=
  c7_invariant_amended wTree
    (Or.inr ⟨_, _, rfl, rfl⟩) (fun _ => Except.error "e") "x" true rfl

/-! ## C5 -/

/-- C5: with the cache present, a compiling pattern and an error-free
walk, an entry line is printed by `search` exactly when the tree has a
regular file at that relative path whose filename ends in `.hl` and whose
filename — not its relative path — matches the compiled pattern; a
pattern matching only the directory part of a path therefore produces no
match. -/
theorem c5_filename_only (w : World) (c : CacheDir)
    (compile : String → Except String (String → Bool)) (pattern : String)
    (re : String → Bool) (hc : w.cache = some c)
    (hre : compile pattern = Except.ok re)
    (hfree : errorFreeList c.entries = true) (rp : String) :
    ("  " ++ rp) ∈ (searchFiles compile pattern w).out ↔
      ∃ n, (rp, n) ∈ filesOfList "" c.entries ∧
        strEndsWith n ".hl" = true ∧ re n = true := by
  have hwalk := walkList_eq_filter (fun n => hlFilter n && re n) "" c.entries hfree
  have hmem := mem_walk_iff (fun n => hlFilter n && re n) c.entries hfree rp
  rw [hwalk] at hmem
  have hhdr1 : ("  " ++ rp) ≠ ("Searching for .hl files matching pattern: " ++ pattern) :=
    append_ne_one _ _ _ ' ' 'S' rfl rfl (by decide)
  have hhdr2 : ("  " ++ rp) ≠ searchSep :=
    append_ne_one _ _ _ ' ' '=' rfl rfl (by decide)
  have hnm : ("  " ++ rp) ≠ noMatchesMsg :=
    append_ne_one _ _ _ ' ' 'N' rfl rfl (by decide)
  simp only [searchFiles, hc, hre, hwalk]
  by_cases hemp :
      (((filesOfList "" c.entries).filter (fun q => hlFilter q.2 && re q.2)).map
        Prod.fst).isEmpty
  · rw [if_pos hemp]
    rw [List.isEmpty_iff] at hemp
    rw [hemp] at hmem
    simp only [List.not_mem_nil, false_iff] at hmem
    simp only [List.mem_append, List.mem_cons, List.not_mem_nil]
    constructor
    · rintro ((h | h | h) | (h | h))
      · exact absurd h hhdr1
      · exact absurd h hhdr2
      · exact h.elim
      · exact absurd h hnm
      · exact h.elim
    · rintro ⟨n, hn, hsuf, hren⟩
      exact absurd ⟨n, hn, by simp [hlFilter, hsuf, hren]⟩ hmem
  · rw [if_neg hemp]
    simp only [List.mem_append, List.mem_cons, List.not_mem_nil, or_false]
    rw [mem_indent_map]
    constructor
    · rintro ((h | h) | h)
      · exact absurd h hhdr1
      · exact absurd h hhdr2
      · rcases hmem.mp h with ⟨n, hn, hb⟩
        simp only [hlFilter, Bool.and_eq_true] at hb
        exact ⟨n, hn, hb.1, hb.2⟩
    · rintro ⟨n, hn, hsuf, hren⟩
      exact Or.inr (hmem.mpr ⟨n, hn, by simp [hlFilter, hsuf, hren]⟩)

/-- A tree whose only file sits in a directory named `foo`: the pattern
`foo` matches the directory part of `foo/bar.hl` but not the filename. -/
def esC5 : List FSEntry := [FSEntry.dir "foo" [FSEntry.file "bar.hl"]]

/-- A matcher for the pattern `^foo`: true on strings starting with `foo`. -/
def reFoo : String → Bool := fun s => strStartsWith s "foo"

def wC5 : World :=
  { home := "/home/u", cache := some ⟨esC5, Except.ok gMeta⟩,
    remoteRefs := Except.ok [], removeRes := none, mkdirRes := none,
    cloneRes := none, cloneTree := [], cloneMeta := gMeta }

theorem c5_filename_only_witness :
    ("  " ++ "foo/bar.hl") ∈
        (searchFiles (fun _ => Except.ok reFoo) "^foo" wC5).out ↔
      ∃ n, ("foo/bar.hl", n) ∈ filesOfList "" esC5 ∧
        strEndsWith n ".hl" = true ∧ reFoo n = true :=
  c5_filename_only wC5 ⟨esC5, Except.ok gMeta⟩ (fun _ => Except.ok reFoo)
    "^foo" reFoo rfl rfl (by simp [esC5, errorFreeList]) "foo/bar.hl"

/-! ## C9 -/

/-- The no-matches message never coincides with the search header lines
nor with an indented entry line. -/
theorem noMatches_not_mem_search (pattern : String) (l : List String) :
    noMatchesMsg ∉
      ["Searching for .hl files matching pattern: " ++ pattern, searchSep]
        ++ l.map (fun rp => "  " ++ rp) := by
  intro hmem
  simp only [List.mem_append, List.mem_cons, List.not_mem_nil, List.mem_map,
    or_false] at hmem
  rcases hmem with (h | h) | ⟨x, _, he⟩
  · exact (append_ne_one "Searching for .hl files matching pattern: " pattern
      noMatchesMsg 'S' 'N' rfl rfl (by decide)) h.symm
  · exact absurd h (by decide)
  · exact (append_ne_one "  " x noMatchesMsg ' ' 'N' rfl rfl (by decide)) he

/-- The no-matches message also never coincides with the walk-error line. -/
theorem noMatches_not_mem_search_err (pattern m : String) (l : List String) :
    noMatchesMsg ∉
      ["Searching for .hl files matching pattern: " ++ pattern, searchSep]
        ++ l.map (fun rp => "  " ++ rp)
        ++ ["Error walking directory: " ++ m] := by
  intro hmem
  rcases List.mem_append.mp hmem with h | h
  · exact noMatches_not_mem_search pattern l h
  · exact (append_ne_one "Error walking directory: " m noMatchesMsg 'E' 'N'
      rfl rfl (by decide)) (List.mem_singleton.mp h).symm

/-- C9: with the cache present and a compiling pattern, if the walk
performed by `search` terminates with a traversal error, `search` prints
the header, the entries collected before the abort, and the walk error —
without the no-matches message, even when nothing matched before the
error; and the no-matches message is printed exactly when the walk
completes without error and collected no match. -/
theorem c9_walk_error (w : World) (c : CacheDir)
    (compile : String → Except String (String → Bool)) (pattern : String)
    (re : String → Bool)
    (hc : w.cache = some c) (hre : compile pattern = Except.ok re) :
    (∀ m, (walkList (fun n => hlFilter n && re n) "" c.entries).2 = some m →
      (searchFiles compile pattern w).out =
        ["Searching for .hl files matching pattern: " ++ pattern, searchSep]
          ++ ((walkList (fun n => hlFilter n && re n) "" c.entries).1.map
                (fun rp => "  " ++ rp))
          ++ ["Error walking directory: " ++ m] ∧
      noMatchesMsg ∉ (searchFiles compile pattern w).out) ∧
    (noMatchesMsg ∈ (searchFiles compile pattern w).out ↔
      (walkList (fun n => hlFilter n && re n) "" c.entries).2 = none ∧
      (walkList (fun n => hlFilter n && re n) "" c.entries).1 = []) := by
  rcases hres : walkList (fun n => hlFilter n && re n) "" c.entries with ⟨lst, err⟩
  cases err with
  | some m =>
      have hout : (searchFiles compile pattern w).out =
          ["Searching for .hl files matching pattern: " ++ pattern, searchSep]
            ++ lst.map (fun rp => "  " ++ rp)
            ++ ["Error walking directory: " ++ m] := by
        simp only [searchFiles, hc, hre, hres]
      constructor
      · intro m' hm'
        have hmm : some m = some m' := hm'
        injection hmm with hmm
        subst hmm
        refine ⟨by rw [hout], ?_⟩
        rw [hout]
        exact noMatches_not_mem_search_err pattern m lst
      · rw [hout]
        constructor
        · intro hmem
          exact absurd hmem (noMatches_not_mem_search_err pattern m lst)
        · rintro ⟨h, -⟩
          exact absurd (show (some m : Option String) = none from h) (by simp)
  | none =>
      constructor
      · intro m' hm'
        exact absurd (show (none : Option String) = some m' from hm') (by simp)
      · cases lst with
        | nil =>
            have hout : (searchFiles compile pattern w).out =
                ["Searching for .hl files matching pattern: " ++ pattern,
                 searchSep] ++ [noMatchesMsg] := by
              simp only [searchFiles, hc, hre, hres]
              rfl
            rw [hout]
            simp
        | cons x xs =>
            have hout : (searchFiles compile pattern w).out =
                ["Searching for .hl files matching pattern: " ++ pattern,
                 searchSep] ++ (x :: xs).map (fun rp => "  " ++ rp) := by
              simp only [searchFiles, hc, hre, hres]
              rfl
            rw [hout]
            constructor
            · intro hmem
              exact absurd hmem (noMatches_not_mem_search pattern (x :: xs))
            · rintro ⟨-, h⟩
              exact absurd h (by simp)

/-- A tree whose walk collects `a.hl` and then aborts on an unreadable
entry. -/
def esC9 : List FSEntry :=
  [FSEntry.file "a.hl", FSEntry.errEntry "broken" "permission denied"]

def wC9 : World :=
  { home := "/home/u", cache := some ⟨esC9, Except.ok gMeta⟩,
    remoteRefs := Except.ok [], removeRes := none, mkdirRes := none,
    cloneRes := none, cloneTree := [], cloneMeta := gMeta }

/-- The always-true matcher (pattern matching everything). -/
def reAll : String → Bool := fun _ => true

theorem c9_walk_error_witness :
    ((searchFiles (fun _ => Except.ok reAll) ".*" wC9).out =
      ["Searching for .hl files matching pattern: " ++ ".*", searchSep]
        ++ ((walkList (fun n => hlFilter n && reAll n) "" esC9).1.map
              (fun rp => "  " ++ rp))
        ++ ["Error walking directory: " ++ "permission denied"] ∧
     noMatchesMsg ∉ (searchFiles (fun _ => Except.ok reAll) ".*" wC9).out) ∧
    (noMatchesMsg ∈ (searchFiles (fun _ => Except.ok reAll) ".*" wC9).out ↔
      (walkList (fun n => hlFilter n && reAll n) "" esC9).2 = none ∧
      (walkList (fun n => hlFilter n && reAll n) "" esC9).1 = []) :=
  ⟨(c9_walk_error wC9 ⟨esC9, Except.ok gMeta⟩ (fun _ => Except.ok reAll) ".*"
      reAll rfl rfl).1 "permission denied"
      (by simp [walkList, esC9, hlFilter, joinRel]),
   (c9_walk_error wC9 ⟨esC9, Except.ok gMeta⟩ (fun _ => Except.ok reAll) ".*"
      reAll rfl rfl).2⟩

/-! ## C8 -/

/-- The scenario cache of C8: exactly `a/b.hl`, `a/c.txt` and `d.hl`. -/
def es8 : List FSEntry :=
  [FSEntry.dir "a" [FSEntry.file "b.hl", FSEntry.file "c.txt"],
   FSEntry.file "d.hl"]

def w8 : World :=
  { home := "/home/u", cache := some ⟨es8, Except.ok gMeta⟩,
    remoteRefs := Except.ok [], removeRes := none, mkdirRes := none,
    cloneRes := none, cloneTree := [], cloneMeta := gMeta }

/-- Evaluation of the walk on the scenario tree: the relative paths of
the two `.hl` files, in traversal order, with no traversal error. -/
theorem walk_es8 : walkList hlFilter "" es8 = (["a/b.hl", "d.hl"], none) := by
  have h1 : hlFilter "b.hl" = true := by decide
  have h2 : hlFilter "c.txt" = false := by decide
  have h3 : hlFilter "d.hl" = true := by decide
  have ha : joinRel "" "a" = "a" := by decide
  have hb : joinRel "a" "b.hl" = "a/b.hl" := by decide
  have hd : joinRel "" "d.hl" = "d.hl" := by decide
  simp [es8, walkList, h1, h2, h3, ha, hb, hd]

/-- The output of `list` in terms of an error-free walk result. -/
theorem listFiles_out_of_walk (w : World) (c : CacheDir) (lst : List String)
    (hc : w.cache = some c)
    (hw : walkList hlFilter "" c.entries = (lst, none)) :
    (listFiles w).out = listHeader ++ lst.map (fun rp => "  " ++ rp) := by
  simp only [listFiles, hc, hw]

/-- What `list` prints on the C8 scenario cache: the two fixed header
lines, then the two qualifying entries, each indented by two spaces. -/
theorem listFiles_w8_out :
    (listFiles w8).out =
      ["Listing .hl files in cache directory:", sepLine 37,
       "  a/b.hl", "  d.hl"] := by
  have he1 : "  " ++ "a/b.hl" = "  a/b.hl" := by decide
  have he2 : "  " ++ "d.hl" = "  d.hl" := by decide
  rw [listFiles_out_of_walk w8 ⟨es8, Except.ok gMeta⟩ ["a/b.hl", "d.hl"]
    rfl walk_es8]
  simp [listHeader, he1, he2]

/-- C8 fails as stated: on the scenario cache, the output of `list` is not
the bare two lines `a/b.hl` and `d.hl` (in either order) — the program
also prints a two-line header and indents each entry. -/
theorem c8_counterexample :
    (listFiles w8).out ≠ ["a/b.hl", "d.hl"] ∧
    (listFiles w8).out ≠ ["d.hl", "a/b.hl"] := by
  rw [listFiles_w8_out]
  exact ⟨by decide, by decide⟩

/-- C8 amended: on the scenario cache, `list` prints the fixed two-line
header followed by exactly the entry lines for `a/b.hl` and `d.hl`, each
indented two spaces, and nothing else; no line for `a/c.txt` is printed. -/
theorem c8_list_scenario :
    (listFiles w8).out =
      ["Listing .hl files in cache directory:", sepLine 37,
       "  a/b.hl", "  d.hl"] ∧
    "  a/c.txt" ∉ (listFiles w8).out ∧ "a/c.txt" ∉ (listFiles w8).out := by
  refine ⟨listFiles_w8_out, ?_, ?_⟩ <;> rw [listFiles_w8_out] <;> decide

end SchemaManager
